import Mathlib

/-!
Verification development for the filter-and-report pipeline of
`src/streamlit_app.py`: category/date filtering, the byte-count formatter
`format_size`, the sized CSV export, and the descriptive-statistics summary.

The pandas/streamlit library calls (`to_csv`, `describe`, `StringIO.tell`,
`Series.min`) are not part of the repository's source; where a claim depends
on them they are modelled from the spec (and from the documented behaviour
of the exact call made in the source), with a doc comment marking each such
definition.  Everything else is translated directly from the source lines
cited next to each definition.
-/

/-- The fixed five-value weather enumeration (`options`, line 38 of
`src/streamlit_app.py`; §6 of the spec). -/
inductive Weather where
  | sun | fog | drizzle | rain | snow
deriving DecidableEq, Repr

/-- A calendar date, compared lexicographically (pandas compares the
`date` column as timestamps; on calendar dates that is the lexicographic
order on (year, month, day)). -/
structure SDate where
  y : Nat
  m : Nat
  d : Nat
deriving DecidableEq, Repr

/-- `a ≤ b` on calendar dates. -/
def dle (a b : SDate) : Prop :=
  a.y < b.y ∨ (a.y = b.y ∧ (a.m < b.m ∨ (a.m = b.m ∧ a.d ≤ b.d)))

instance (a b : SDate) : Decidable (dle a b) := by
  unfold dle; infer_instance

theorem dle_trans {a b c : SDate} (h1 : dle a b) (h2 : dle b c) : dle a c := by
  unfold dle at *; omega

theorem dle_total (a b : SDate) : dle a b ∨ dle b a := by
  unfold dle; omega

/-- One row of the weather table (§3 of the spec).  `idx` is the pandas
row index label: the dataframe loaded at line 24 carries a 0-based range
index, and filtering keeps each surviving row's original label. -/
structure Row where
  idx : Nat
  date : SDate
  weather : Weather
  precipitation : ℚ
  temp_max : ℚ
  temp_min : ℚ
  wind : ℚ
deriving DecidableEq, Repr

/-- `df = source[source["weather"].isin(selection)]` (line 44). -/
def categoryFilter (T : List Row) (C : List Weather) : List Row :=
  T.filter (fun r => decide (r.weather ∈ C))

/-- `df[df["date"].between(start_date, end_date)]` (line 70); pandas
`between` is inclusive on both ends by default. -/
def dateFilter (T : List Row) (s e : SDate) : List Row :=
  T.filter (fun r => decide (dle s r.date) && decide (dle r.date e))

/-- `filtered_df` (lines 44 and 70): first restrict to the selected
weather categories, then to the inclusive date interval. -/
def filtered_df (T : List Row) (C : List Weather) (s e : SDate) : List Row :=
  dateFilter (categoryFilter T C) s e

/-- The spec's single-pass filter (§4.1): all rows with
`row.category ∈ categories AND start ≤ row.date ≤ end`. -/
def filterSpec (T : List Row) (C : List Weather) (s e : SDate) : List Row :=
  T.filter (fun r =>
    decide (r.weather ∈ C) && (decide (dle s r.date) && decide (dle r.date e)))

/-- `df["date"].min()` as used at lines 50-52: the minimum of the `date`
column, which exists only when the frame is nonempty (pandas returns the
missing-value sentinel `NaT` on an empty column). -/
def dateMinO : List Row → Option SDate
  | [] => none
  | r :: rs => some ((rs.map Row.date).foldl (fun a b => if dle b a then b else a) r.date)

theorem filter_after_filter {α : Type} (p q : α → Bool) (l : List α) :
    (l.filter q).filter p = l.filter (fun a => q a && p a) := by
  induction l with
  | nil => rfl
  | cons a t ih =>
      by_cases hq : q a = true
      · by_cases hp : p a = true
        · simp [List.filter, hq, hp, ih]
        · simp [List.filter, hq, Bool.eq_false_iff.mpr hp, ih]
      · simp [List.filter, Bool.eq_false_iff.mpr hq, ih]

/-- C2: the filter keeps exactly the rows whose category is selected and
whose date lies in the inclusive interval, and the result is a sublist of
the input (hence a subset of its rows, made of unchanged records of the
same schema, in their original relative order). -/
theorem C2_filter_correct (T : List Row) (C : List Weather) (s e : SDate) :
    (∀ r : Row, r ∈ filtered_df T C s e ↔
      (r ∈ T ∧ r.weather ∈ C ∧ dle s r.date ∧ dle r.date e)) ∧
    List.Sublist (filtered_df T C s e) T := by
  constructor
  · intro r
    simp only [filtered_df, dateFilter, categoryFilter, List.mem_filter,
      Bool.and_eq_true, decide_eq_true_eq]
    tauto
  · exact (List.filter_sublist _).trans (List.filter_sublist _)

/-- C2 witness: on the three-row table of §8, filtering to sun and rain
over [2012-01-01, 2012-01-03] keeps exactly the rain and sun rows. -/
theorem C2_witness :
    Row.mk 1 ⟨2012, 1, 2⟩ Weather.rain 0 8 2 1 ∈
      filtered_df
        [Row.mk 0 ⟨2012, 1, 1⟩ Weather.drizzle 0 10 3 1,
         Row.mk 1 ⟨2012, 1, 2⟩ Weather.rain 0 8 2 1,
         Row.mk 2 ⟨2012, 1, 3⟩ Weather.sun 0 15 5 1]
        [Weather.sun, Weather.rain] ⟨2012, 1, 1⟩ ⟨2012, 1, 3⟩ := by
  refine ((C2_filter_correct _ _ _ _).1 _).mpr ?_
  refine ⟨by decide, by decide, by decide, by decide⟩

/-- C9: the code's two-stage filtering equals the spec's single-pass
conjunctive filter, and the two restriction stages commute, for every
table, category set and pair of dates. -/
theorem C9_two_stage_equiv (T : List Row) (C : List Weather) (s e : SDate) :
    filtered_df T C s e = filterSpec T C s e ∧
    dateFilter (categoryFilter T C) s e = categoryFilter (dateFilter T s e) C := by
  constructor
  · simpa [filtered_df, dateFilter, categoryFilter, filterSpec] using
      filter_after_filter
        (fun r : Row => decide (dle s r.date) && decide (dle r.date e))
        (fun r : Row => decide (r.weather ∈ C)) T
  · rw [show dateFilter (categoryFilter T C) s e =
        T.filter (fun r => decide (r.weather ∈ C) &&
          (decide (dle s r.date) && decide (dle r.date e))) from
      filter_after_filter _ _ T]
    rw [show categoryFilter (dateFilter T s e) C =
        T.filter (fun r => (decide (dle s r.date) && decide (dle r.date e)) &&
          decide (r.weather ∈ C)) from
      filter_after_filter _ _ T]
    apply List.filter_congr
    intro r _
    exact Bool.and_comm _ _

/-- C8: a date interval whose start is strictly after its end (equivalently,
`¬ dle start end`, the dates being linearly ordered) selects no row: the
filter returns the empty table and no error arises (the filter is total). -/
theorem C8_inverted_range_empty (T : List Row) (C : List Weather) (s e : SDate)
    (h : ¬ dle s e) : filtered_df T C s e = [] := by
  unfold filtered_df dateFilter
  rw [List.filter_eq_nil_iff]
  intro r _
  simp only [Bool.and_eq_true, decide_eq_true_eq, not_and]
  intro h1 h2
  exact h (dle_trans h1 h2)

/-- C8 witness: a concrete one-row table with start 2012-01-02 after end
2012-01-01 filters to the empty table. -/
theorem C8_witness :
    ¬ dle ⟨2012, 1, 2⟩ ⟨2012, 1, 1⟩ ∧
    filtered_df [Row.mk 0 ⟨2012, 1, 1⟩ Weather.sun 0 10 3 1]
      [Weather.sun] ⟨2012, 1, 2⟩ ⟨2012, 1, 1⟩ = [] :=
  ⟨by decide, C8_inverted_range_empty _ _ _ _ (by decide)⟩

/-- C5 (evaluating the code at the failing input): with an empty selected
category set the filter of line 44 yields the empty table, and on that
empty table the `date` column has no minimum, so the start-date default
`df["date"].min().date()` of lines 48-53 has no value to work on. -/
theorem C5_empty_selection_eval (T : List Row) :
    categoryFilter T [] = [] ∧ dateMinO (categoryFilter T []) = none := by
  have h : categoryFilter T [] = [] := by
    unfold categoryFilter
    rw [List.filter_eq_nil_iff]
    intro r _
    simp
  exact ⟨h, by rw [h]; rfl⟩

/-- The digit characters used by the numeral renderers. -/
def digitChar : Nat → Char
  | 0 => '0' | 1 => '1' | 2 => '2' | 3 => '3' | 4 => '4'
  | 5 => '5' | 6 => '6' | 7 => '7' | 8 => '8' | _ => '9'

/-- Decimal digits of `n`, most significant first; `fuel` bounds the
recursion and always suffices at `n + 1`. -/
def natDigits : Nat → Nat → List Char
  | 0, _ => []
  | fuel + 1, n =>
      if n < 10 then [digitChar n]
      else natDigits fuel (n / 10) ++ [digitChar (n % 10)]

/-- Decimal rendering of a natural number. -/
def natStr (n : Nat) : String := ⟨natDigits (n + 1) n⟩

/-- Decimal rendering of an integer. -/
def intStr (i : Int) : String :=
  (if i < 0 then "-" else "") ++ natStr i.natAbs

/-- `units = ["B", "KB", "MB", "GB", "TB"]` (line 16). -/
def unitsList : List String := ["B", "KB", "MB", "GB", "TB"]

/-- The `while size > 1024 and unit < len(units) - 1` loop of lines 19-21:
repeatedly divide by 1024 and advance the unit index.  Python divides IEEE
doubles, but division by 1024 only shifts the exponent, so on the integer
byte counts the program feeds in the arithmetic is exact and ℚ models it
faithfully. -/
def formatSizeGo : Nat → ℚ → Nat → ℚ × Nat
  | 0, size, unit => (size, unit)
  | fuel + 1, size, unit =>
      if size > 1024 ∧ unit < 4 then formatSizeGo fuel (size / 1024) (unit + 1)
      else (size, unit)

/-- Entry point of the loop: the unit index can rise at most `4 - unit`
more times, so that much fuel is always enough. -/
def formatSizeLoop (size : ℚ) (unit : Nat) : ℚ × Nat :=
  formatSizeGo (4 - unit) size unit

/-- Round to the nearest integer, ties to even — the rounding Python's
`format(x, ".2f")` applies to the (exactly represented) value. -/
def roundHalfEven (q : ℚ) : Int :=
  if q - Rat.floor q < 1 / 2 then Rat.floor q
  else if 1 / 2 < q - Rat.floor q then Rat.floor q + 1
  else if 2 ∣ Rat.floor q then Rat.floor q else Rat.floor q + 1

/-- The two-decimal fixed-point rendering of `size` (an f-string with the
format spec .2f): the value rounded to two fraction digits, rendered
with exactly two digits after the decimal point. -/
def twoDec (q : ℚ) : String :=
  (if q < 0 then "-" else "") ++
    natStr ((roundHalfEven (q * 100)).natAbs / 100) ++ "." ++
    ⟨[digitChar (((roundHalfEven (q * 100)).natAbs / 10) % 10),
      digitChar ((roundHalfEven (q * 100)).natAbs % 10)]⟩

/-- `format_size` (lines 15-22). -/
def format_size (size_in_bytes : ℚ) : String :=
  twoDec (formatSizeLoop size_in_bytes 0).1 ++ " " ++
    (unitsList.getD (formatSizeLoop size_in_bytes 0).2 "")

theorem formatSizeLoop_stop {size : ℚ} {unit : Nat}
    (h : ¬ (size > 1024 ∧ unit < 4)) : formatSizeLoop size unit = (size, unit) := by
  unfold formatSizeLoop
  cases h4 : 4 - unit with
  | zero => rfl
  | succ f => simp [formatSizeGo, h]

theorem formatSizeLoop_step {size : ℚ} {unit : Nat}
    (h1 : size > 1024) (h2 : unit < 4) :
    formatSizeLoop size unit = formatSizeLoop (size / 1024) (unit + 1) := by
  unfold formatSizeLoop
  rw [show 4 - unit = (4 - (unit + 1)) + 1 by omega]
  simp [formatSizeGo, h1, h2]

theorem formatSizeGo_unit_le (fuel : Nat) (size : ℚ) (unit : Nat) :
    (formatSizeGo fuel size unit).2 ≤ unit + fuel := by
  induction fuel generalizing size unit with
  | zero => simp [formatSizeGo]
  | succ f ih =>
      unfold formatSizeGo
      split
      · have := ih (size / 1024) (unit + 1)
        omega
      · simp

theorem formatSizeLoop_unit_le (size : ℚ) (unit : Nat) :
    (formatSizeLoop size unit).2 ≤ max unit 4 := by
  have := formatSizeGo_unit_le (4 - unit) size unit
  unfold formatSizeLoop
  omega

theorem unitsList_getD_mem {i : Nat} (h : i ≤ 4) :
    unitsList.getD i "" ∈ unitsList := by
  interval_cases i <;> decide

theorem digitChar_digit (k : Nat) :
    digitChar k ∈ ['0', '1', '2', '3', '4', '5', '6', '7', '8', '9'] := by
  match k with
  | 0 => decide
  | 1 => decide
  | 2 => decide
  | 3 => decide
  | 4 => decide
  | 5 => decide
  | 6 => decide
  | 7 => decide
  | 8 => decide
  | n + 9 => show '9' ∈ _; decide

theorem formatSizeLoop_big {b : ℚ} (hb : 1024 ^ 5 ≤ b) :
    formatSizeLoop b 0 = (b / 1024 ^ 4, 4) := by
  have p : (0 : ℚ) < 1024 := by norm_num
  have h1 : (1024 : ℚ) ^ 4 ≤ b / 1024 := by
    rw [le_div_iff₀ p]; nlinarith [hb]
  have h2 : (1024 : ℚ) ^ 3 ≤ b / 1024 / 1024 := by
    rw [le_div_iff₀ p]; nlinarith [h1]
  have h3 : (1024 : ℚ) ^ 2 ≤ b / 1024 / 1024 / 1024 := by
    rw [le_div_iff₀ p]; nlinarith [h2]
  rw [formatSizeLoop_step (by nlinarith [hb]) (by norm_num)]
  rw [formatSizeLoop_step (by nlinarith [h1]) (by norm_num)]
  rw [formatSizeLoop_step (by nlinarith [h2]) (by norm_num)]
  rw [formatSizeLoop_step (by nlinarith [h3]) (by norm_num)]
  rw [formatSizeLoop_stop (by simp)]
  rw [div_div, div_div, div_div]
  norm_num

unseal Rat.mul Rat.inv Rat.add Rat.sub in
/-- C3: `format_size` promotes to the next unit only while the value
strictly exceeds 1024 and a larger unit remains — in particular 1024 is
not promoted, 1025 is, and 0 stays in bytes — and every result is an
optional sign, an integer part, a point, exactly two digit characters of
fraction, a space, and one of the five unit suffixes. -/
theorem C3_format_size_boundary :
    format_size 1024 = "1024.00 B" ∧
    format_size 1025 = "1.00 KB" ∧
    format_size 0 = "0.00 B" ∧
    (∀ b : ℚ, b ≤ 1024 → formatSizeLoop b 0 = (b, 0)) ∧
    (∀ (v : ℚ) (u : Nat), 4 ≤ u → formatSizeLoop v u = (v, u)) ∧
    (∀ b : ℚ, ∃ (sign ip u : String) (d1 d2 : Char),
      d1 ∈ ['0', '1', '2', '3', '4', '5', '6', '7', '8', '9'] ∧
      d2 ∈ ['0', '1', '2', '3', '4', '5', '6', '7', '8', '9'] ∧
      u ∈ unitsList ∧
      format_size b = sign ++ ip ++ "." ++ ⟨[d1, d2]⟩ ++ " " ++ u) := by
  refine ⟨by decide, by decide, by decide, ?_, ?_, ?_⟩
  · intro b hb
    exact formatSizeLoop_stop (by rintro ⟨h1, h2⟩; exact absurd h1 (not_lt.mpr hb))
  · intro v u hu
    exact formatSizeLoop_stop (by omega)
  · intro b
    have hle : (formatSizeLoop b 0).2 ≤ 4 := by
      have := formatSizeLoop_unit_le b 0
      omega
    refine ⟨if (formatSizeLoop b 0).1 < 0 then "-" else "",
      natStr ((roundHalfEven ((formatSizeLoop b 0).1 * 100)).natAbs / 100),
      unitsList.getD (formatSizeLoop b 0).2 "",
      digitChar (((roundHalfEven ((formatSizeLoop b 0).1 * 100)).natAbs / 10) % 10),
      digitChar ((roundHalfEven ((formatSizeLoop b 0).1 * 100)).natAbs % 10),
      digitChar_digit _, digitChar_digit _, unitsList_getD_mem hle, rfl⟩

/-- C3 witness: the loop leaves 512 bytes alone, and leaves any value
alone once the unit index reaches the last unit. -/
theorem C3_witness :
    formatSizeLoop (512 : ℚ) 0 = (512, 0) ∧ formatSizeLoop (7 : ℚ) 9 = (7, 9) :=
  ⟨C3_format_size_boundary.2.2.2.1 512 (by norm_num),
   C3_format_size_boundary.2.2.2.2.1 7 9 (by norm_num)⟩

/-- C10: the unit-promotion loop always terminates with a unit index of
at most 4 and a suffix drawn from the five units; an input of 1024^5 or
more is divided exactly four times and stops at TB (so the remaining
numeric value exceeds 1024 whenever the input strictly exceeds 1024^5);
and a negative input never enters the loop, keeping suffix B. -/
theorem C10_format_size_total :
    (∀ b : ℚ, (formatSizeLoop b 0).2 ≤ 4 ∧
      unitsList.getD (formatSizeLoop b 0).2 "" ∈ unitsList) ∧
    (∀ b : ℚ, 1024 ^ 5 ≤ b →
      formatSizeLoop b 0 = (b / 1024 ^ 4, 4) ∧
      unitsList.getD (formatSizeLoop b 0).2 "" = "TB") ∧
    (∀ b : ℚ, 1024 ^ 5 < b → (formatSizeLoop b 0).1 > 1024) ∧
    (∀ b : ℚ, b < 0 →
      formatSizeLoop b 0 = (b, 0) ∧ format_size b = twoDec b ++ " B") := by
  refine ⟨?_, ?_, ?_, ?_⟩
  · intro b
    have hle : (formatSizeLoop b 0).2 ≤ 4 := by
      have := formatSizeLoop_unit_le b 0
      omega
    exact ⟨hle, unitsList_getD_mem hle⟩
  · intro b hb
    refine ⟨formatSizeLoop_big hb, ?_⟩
    rw [formatSizeLoop_big hb]
    rfl
  · intro b hb
    rw [formatSizeLoop_big (le_of_lt hb)]
    show 1024 < b / 1024 ^ 4
    rw [lt_div_iff₀ (by norm_num : (0:ℚ) < 1024 ^ 4)]
    nlinarith [hb]
  · intro b hb
    have hstop : formatSizeLoop b 0 = (b, 0) :=
      formatSizeLoop_stop (by rintro ⟨h1, _⟩; linarith)
    refine ⟨hstop, ?_⟩
    unfold format_size
    rw [hstop, String.append_assoc]
    rfl

/-- C10 witness: at exactly 1024^5 the loop stops at TB with value 1024,
and a concrete negative input keeps unit index 0. -/
theorem C10_witness :
    formatSizeLoop ((1024 : ℚ) ^ 5) 0 = ((1024 : ℚ) ^ 5 / 1024 ^ 4, 4) ∧
    formatSizeLoop (-3 : ℚ) 0 = (-3, 0) :=
  ⟨(C10_format_size_total.2.1 (1024 ^ 5) (le_refl _)).1,
   (C10_format_size_total.2.2.2 (-3) (by norm_num)).1⟩

/-- The table's column names, in dataframe order. -/
def colNames : List String :=
  ["date", "weather", "precipitation", "temp_max", "temp_min", "wind"]

/-- The category's textual form (the dataset stores these five strings). -/
def renderWeather : Weather → String
  | .sun => "sun"
  | .fog => "fog"
  | .drizzle => "drizzle"
  | .rain => "rain"
  | .snow => "snow"

/-- Left-pad a numeral with zeros to width `k`. -/
def padZeros (k : Nat) (s : String) : String :=
  (⟨List.replicate (k - s.length) '0'⟩ : String) ++ s

/-- ISO-8601 calendar-date rendering, as pandas writes a datetime column
to CSV (spec §4.3: dates as ISO-8601 calendar dates). -/
def renderDate (d : SDate) : String :=
  padZeros 4 (natStr d.y) ++ "-" ++ padZeros 2 (natStr d.m) ++ "-" ++
    padZeros 2 (natStr d.d)

/-- The least exponent `k ≤ 27` with `den` dividing `10 ^ k`, when one
exists: rationals whose denominator divides a power of ten have an exact
finite decimal expansion. -/
def decExp (den : Nat) : Option Nat :=
  (List.range 28).find? (fun k => 10 ^ k % den == 0)

/-- Modelled from the spec: the natural textual representation of a real
value (spec §4.3, reals with no enforced fixed precision) — the exact
decimal expansion when the denominator permits one (pandas renders the
dataset's one-decimal floats this way, e.g. 12.8 and 0.0), a fraction
form otherwise.  The claims settled below depend only on the row/field
structure of the CSV and on every rendered character being ASCII, which
holds for any such numeric rendering. -/
def renderQ (q : ℚ) : String :=
  match decExp q.den with
  | some k =>
      if k = 0 then intStr q.num ++ ".0"
      else
        (if q.num < 0 then "-" else "") ++
          natStr (q.num.natAbs * (10 ^ k / q.den) / 10 ^ k) ++ "." ++
          padZeros k (natStr (q.num.natAbs * (10 ^ k / q.den) % 10 ^ k))
  | none => intStr q.num ++ "/" ++ natStr q.den

/-- One record's six column fields, in column order. -/
def recordFields (r : Row) : List String :=
  [renderDate r.date, renderWeather r.weather, renderQ r.precipitation,
   renderQ r.temp_max, renderQ r.temp_min, renderQ r.wind]

/-- Modelled from the spec: the rows-of-fields structure of pandas
`DataFrame.to_csv`, which is not repository code (called at lines 13, 161
and 179).  One header row then one row per record (spec §4.3); with
`index := true` (the pandas default, used by `convert_for_download` at
line 13) every line is prefixed by the row-index column, whose header
label is empty; with `index := false` (the sizing calls at lines 161 and
179) no index column is written. -/
def csvFields (T : List Row) (index : Bool) : List (List String) :=
  (if index then "" :: colNames else colNames) ::
    T.map (fun r => if index then natStr r.idx :: recordFields r else recordFields r)

/-- Comma-join of one CSV line's fields (none of the rendered fields
contains a comma or newline, so pandas applies no quoting here). -/
def commaSep : List String → String
  | [] => ""
  | [s] => s
  | s :: t :: rest => s ++ "," ++ commaSep (t :: rest)

def concatAll : List String → String
  | [] => ""
  | s :: rest => s ++ concatAll rest

/-- The CSV text: every line, header included, terminated by a newline
(pandas ends each written record line with the line terminator). -/
def to_csv (T : List Row) (index : Bool) : String :=
  concatAll ((csvFields T index).map (fun fs => commaSep fs ++ "\n"))

/-- `csv_size_bytes` (lines 160-162 and 178-180): `to_csv(buffer,
index=False)` into a `StringIO` followed by `buffer.tell()`, which
reports the number of characters written — the length of the index-free
CSV text. -/
def csv_size_bytes (T : List Row) : Nat := (to_csv T false).length

/-- UTF-8 encoding of one code point, as a list of byte values. -/
def utf8EncChar (n : Nat) : List Nat :=
  if n < 128 then [n]
  else if n < 2048 then [192 + n / 64, 128 + n % 64]
  else if n < 65536 then [224 + n / 4096, 128 + n / 64 % 64, 128 + n % 64]
  else [240 + n / 262144, 128 + n / 4096 % 64, 128 + n / 64 % 64, 128 + n % 64]

/-- UTF-8 encoding of a character sequence. -/
def utf8Bytes : List Char → List Nat
  | [] => []
  | c :: cs => utf8EncChar c.toNat ++ utf8Bytes cs

/-- `convert_for_download` (lines 11-13): `df.to_csv().encode("utf-8")` —
the UTF-8 bytes of the CSV text *with* the pandas default index column. -/
def convert_for_download (T : List Row) : List Nat :=
  utf8Bytes (to_csv T true).data

/-- Every character of `s` is an ASCII code point. -/
def asciiStr (s : String) : Prop := ∀ c ∈ s.data, c.toNat < 128

theorem asciiStr_append {a b : String} (ha : asciiStr a) (hb : asciiStr b) :
    asciiStr (a ++ b) := by
  intro c hc
  rw [String.data_append] at hc
  rcases List.mem_append.mp hc with h | h
  · exact ha c h
  · exact hb c h

theorem digitChar_ascii (k : Nat) : (digitChar k).toNat < 128 := by
  have h := digitChar_digit k
  simp only [List.mem_cons, List.mem_singleton, List.not_mem_nil, or_false] at h
  rcases h with h | h | h | h | h | h | h | h | h | h <;> rw [h] <;> decide

theorem natDigits_ascii (fuel n : Nat) : ∀ c ∈ natDigits fuel n, c.toNat < 128 := by
  induction fuel generalizing n with
  | zero => intro c hc; simp [natDigits] at hc
  | succ f ih =>
      intro c hc
      unfold natDigits at hc
      split at hc
      · rcases List.mem_singleton.mp hc with rfl
        exact digitChar_ascii n
      · rcases List.mem_append.mp hc with h | h
        · exact ih (n / 10) c h
        · rcases List.mem_singleton.mp h with rfl
          exact digitChar_ascii (n % 10)

theorem natStr_ascii (n : Nat) : asciiStr (natStr n) :=
  fun c hc => natDigits_ascii (n + 1) n c hc

theorem intStr_ascii (i : Int) : asciiStr (intStr i) := by
  unfold intStr
  apply asciiStr_append
  · split
    · intro c hc; fin_cases hc; decide
    · intro c hc; simp [String.data] at hc
  · exact natStr_ascii i.natAbs

theorem padZeros_ascii {s : String} (k : Nat) (hs : asciiStr s) :
    asciiStr (padZeros k s) := by
  apply asciiStr_append
  · intro c hc
    rcases List.eq_of_mem_replicate hc with rfl
    decide
  · exact hs

theorem renderDate_ascii (d : SDate) : asciiStr (renderDate d) := by
  unfold renderDate
  refine asciiStr_append (asciiStr_append (asciiStr_append (asciiStr_append
    (padZeros_ascii 4 (natStr_ascii d.y)) ?_) (padZeros_ascii 2 (natStr_ascii d.m)))
    ?_) (padZeros_ascii 2 (natStr_ascii d.d)) <;>
    (intro c hc; fin_cases hc; decide)

theorem renderWeather_ascii (w : Weather) : asciiStr (renderWeather w) := by
  cases w <;> (intro c hc; unfold renderWeather at hc; fin_cases hc <;> decide)

theorem renderQ_ascii (q : ℚ) : asciiStr (renderQ q) := by
  unfold renderQ
  split
  · split
    · exact asciiStr_append (intStr_ascii q.num)
        (fun c hc => by fin_cases hc <;> decide)
    · refine asciiStr_append (asciiStr_append (asciiStr_append ?_ ?_) ?_) ?_
      · split
        · intro c hc; fin_cases hc; decide
        · intro c hc; simp [String.data] at hc
      · exact natStr_ascii _
      · intro c hc; fin_cases hc; decide
      · exact padZeros_ascii _ (natStr_ascii _)
  · refine asciiStr_append (asciiStr_append (intStr_ascii q.num) ?_) (natStr_ascii q.den)
    intro c hc; fin_cases hc; decide

instance (s : String) : Decidable (asciiStr s) := by
  unfold asciiStr
  exact List.decidableBAll _ _

theorem commaSep_ascii : ∀ fs : List String, (∀ s ∈ fs, asciiStr s) →
    asciiStr (commaSep fs) := by
  intro fs
  induction fs with
  | nil => intro _ c hc; exact absurd hc (List.not_mem_nil c)
  | cons s rest ih =>
      intro h
      cases rest with
      | nil => exact h s (by simp)
      | cons t r2 =>
          refine asciiStr_append (asciiStr_append (h s (by simp)) ?_) ?_
          · intro c hc; fin_cases hc; decide
          · exact ih (fun x hx => h x (List.mem_cons_of_mem s hx))

theorem concatAll_ascii : ∀ ls : List String, (∀ s ∈ ls, asciiStr s) →
    asciiStr (concatAll ls) := by
  intro ls
  induction ls with
  | nil => intro _ c hc; exact absurd hc (List.not_mem_nil c)
  | cons s rest ih =>
      intro h
      exact asciiStr_append (h s (by simp)) (ih (fun x hx => h x (List.mem_cons_of_mem s hx)))

theorem recordFields_ascii (r : Row) : ∀ s ∈ recordFields r, asciiStr s := by
  intro s hs
  simp only [recordFields, List.mem_cons, List.not_mem_nil, or_false] at hs
  rcases hs with rfl | rfl | rfl | rfl | rfl | rfl
  · exact renderDate_ascii r.date
  · exact renderWeather_ascii r.weather
  · exact renderQ_ascii r.precipitation
  · exact renderQ_ascii r.temp_max
  · exact renderQ_ascii r.temp_min
  · exact renderQ_ascii r.wind

theorem csvFields_ascii (T : List Row) (index : Bool) :
    ∀ fs ∈ csvFields T index, ∀ s ∈ fs, asciiStr s := by
  intro fs hfs
  rcases List.mem_cons.mp hfs with rfl | hmem
  · cases index
    · simp only [Bool.false_eq_true, if_false]
      decide
    · simp only [if_true]
      decide
  · rcases List.mem_map.mp hmem with ⟨r, _, rfl⟩
    cases index
    · simp only [Bool.false_eq_true, if_false]
      exact recordFields_ascii r
    · simp only [if_true]
      intro s hs
      rcases List.mem_cons.mp hs with rfl | hs2
      · exact natStr_ascii r.idx
      · exact recordFields_ascii r s hs2

theorem to_csv_ascii (T : List Row) (index : Bool) : asciiStr (to_csv T index) := by
  unfold to_csv
  apply concatAll_ascii
  intro s hs
  rcases List.mem_map.mp hs with ⟨fs, hfs, rfl⟩
  refine asciiStr_append (commaSep_ascii fs (csvFields_ascii T index fs hfs)) ?_
  intro c hc; fin_cases hc; decide

theorem utf8Bytes_len : ∀ l : List Char, (∀ c ∈ l, c.toNat < 128) →
    (utf8Bytes l).length = l.length := by
  intro l
  induction l with
  | nil => intro _; rfl
  | cons c cs ih =>
      intro h
      have hc : c.toNat < 128 := h c (by simp)
      unfold utf8Bytes
      rw [List.length_append,
        show utf8EncChar c.toNat = [c.toNat] from by unfold utf8EncChar; rw [if_pos hc],
        ih (fun x hx => h x (List.mem_cons_of_mem c hx))]
      simp [Nat.add_comm]

unseal Rat.mul Rat.inv Rat.add Rat.sub in
/-- C1 counterexample: on a concrete one-row table the size computed from
the buffer (index-free serialization, lines 160-162) is not the length of
the byte sequence handed to the download button (index-bearing
serialization, line 13): the index column adds bytes. -/
theorem C1_counterexample :
    csv_size_bytes [Row.mk 0 ⟨2012, 1, 1⟩ Weather.sun 0 10 5 1] ≠
      (convert_for_download [Row.mk 0 ⟨2012, 1, 1⟩ Weather.sun 0 10 5 1]).length := by
  decide

/-- C1 amended: `csv_size_bytes` equals the exact length of the UTF-8
encoding of the serialization actually written to the in-memory buffer
(the index-free CSV, whose text is pure ASCII, so the character count
`buffer.tell()` reports is exactly its encoded byte count); it is not the
length of the download bytes, which serialize with the index column. -/
theorem C1_amended_size (T : List Row) :
    csv_size_bytes T = (utf8Bytes (to_csv T false).data).length := by
  rw [utf8Bytes_len (to_csv T false).data (to_csv_ascii T false)]
  rfl

unseal Rat.mul Rat.inv Rat.add Rat.sub in
/-- C4 counterexample: on a concrete one-row table the download CSV's
header line is not the list of T's column names (it carries a leading
empty index label), and both of its lines have seven fields, one more
than the six columns. -/
theorem C4_counterexample :
    (csvFields [Row.mk 0 ⟨2012, 1, 2⟩ Weather.rain 0 8 2 1] true).head? ≠
      some colNames ∧
    (csvFields [Row.mk 0 ⟨2012, 1, 2⟩ Weather.rain 0 8 2 1] true).map
      List.length = [7, 7] ∧
    colNames.length = 6 := by
  refine ⟨by decide, by decide, by decide⟩

/-- C4 amended: the downloaded CSV consists of exactly one header row and
one comma-separated row per record, encoded as UTF-8, but every line
carries one additional leading index column (empty label in the header,
the row's index in each record), so each line has seven fields; for an
empty table only the header row is produced.  The index-free
serialization used for the size display has exactly the claimed shape:
the column-name header and six fields per record row. -/
theorem C4_amended_csv_shape (T : List Row) :
    csvFields T true =
      ("" :: colNames) :: T.map (fun r => natStr r.idx :: recordFields r) ∧
    (∀ fs ∈ csvFields T true, fs.length = 7) ∧
    csvFields T false = colNames :: T.map recordFields ∧
    (∀ fs ∈ csvFields T false, fs.length = 6) ∧
    csvFields ([] : List Row) true = [("" :: colNames)] ∧
    convert_for_download T = utf8Bytes (to_csv T true).data := by
  refine ⟨rfl, ?_, rfl, ?_, rfl, rfl⟩
  · intro fs hfs
    rcases List.mem_cons.mp hfs with rfl | hmem
    · decide
    · rcases List.mem_map.mp hmem with ⟨r, _, rfl⟩
      simp [recordFields]
  · intro fs hfs
    rcases List.mem_cons.mp hfs with rfl | hmem
    · decide
    · rcases List.mem_map.mp hmem with ⟨r, _, rfl⟩
      simp [recordFields]

/-- C4 witness: the header line of the download CSV of the empty table is
a member of that CSV and has seven fields. -/
theorem C4_witness : (("" :: colNames) : List String).length = 7 :=
  (C4_amended_csv_shape []).2.1 ("" :: colNames) (by decide)

/-- Minimum of two rationals, written out so it evaluates by cases on the
decidable order. -/
def qmin (a b : ℚ) : ℚ := if a ≤ b then a else b

def qmax (a b : ℚ) : ℚ := if a ≤ b then b else a

/-- Minimum of a column, absent when the column is empty. -/
def minFold : List ℚ → Option ℚ
  | [] => none
  | x :: xs => some (xs.foldl qmin x)

/-- Maximum of a column, absent when the column is empty. -/
def maxFold : List ℚ → Option ℚ
  | [] => none
  | x :: xs => some (xs.foldl qmax x)

/-- Linear interpolation between order statistics of the sorted values
`v`: the p-quantile sits at rank h = p(n−1); take the value at ⌊h⌋ and
interpolate toward the next order statistic by the fractional part. -/
def percentile (v : List ℚ) (p : ℚ) : ℚ :=
  let h : ℚ := p * ((v.length : ℚ) - 1)
  let i : Nat := (Rat.floor h).toNat
  let g : ℚ := h - (Rat.floor h : ℚ)
  let a := v.getD i 0
  let b := v.getD (i + 1) a
  a + g * (b - a)

/-- Per-column summary.  pandas reports `std`, the floating-point square
root of the sample variance; a square root is irrational in general, so
the model carries the exact sample variance (the square of the reported
std), which has the same definedness (absent exactly when n < 2) and the
same n−1 denominator. -/
structure ColStats where
  count : Nat
  mean : Option ℚ
  sampleVar : Option ℚ
  minV : Option ℚ
  q25 : Option ℚ
  q50 : Option ℚ
  q75 : Option ℚ
  maxV : Option ℚ
deriving DecidableEq, Repr

/-- Modelled from the spec: the per-numeric-column contract of pandas
`DataFrame.describe` (library code, called at lines 146 and 149): count
of non-missing values, arithmetic mean, sample variance computed by the
usual sum-of-squares route with denominator n−1 and an undefined sentinel
when n < 2, minimum, the three quartiles by linear interpolation between
order statistics of the sorted values, and maximum; on an empty column
every aggregate is the undefined sentinel and nothing is raised. -/
def describeCol (col : List (Option ℚ)) : ColStats :=
  let xs := col.filterMap id
  let n := xs.length
  let mean := xs.sum / (n : ℚ)
  let sorted := List.insertionSort (· ≤ ·) xs
  { count := n
  , mean := if n = 0 then none else some mean
  , sampleVar := if n < 2 then none else
      some (((xs.map (fun x => x ^ 2)).sum - (n : ℚ) * mean ^ 2) / ((n : ℚ) - 1))
  , minV := minFold xs
  , q25 := if n = 0 then none else some (percentile sorted (1 / 4))
  , q50 := if n = 0 then none else some (percentile sorted (1 / 2))
  , q75 := if n = 0 then none else some (percentile sorted (3 / 4))
  , maxV := maxFold xs }

/-- The summaries of lines 146 and 149 applied to the table's four
numeric columns (none of which carries missing values in this dataset,
so each cell is present). -/
def describeTable (T : List Row) : List (String × ColStats) :=
  [("precipitation", describeCol (T.map (fun r => some r.precipitation))),
   ("temp_max", describeCol (T.map (fun r => some r.temp_max))),
   ("temp_min", describeCol (T.map (fun r => some r.temp_min))),
   ("wind", describeCol (T.map (fun r => some r.wind)))]

theorem sum_sq_dev (l : List ℚ) (μ : ℚ) :
    (l.map (fun x => (x - μ) ^ 2)).sum =
      (l.map (fun x => x ^ 2)).sum - 2 * μ * l.sum + (l.length : ℚ) * μ ^ 2 := by
  induction l with
  | nil => simp
  | cons x xs ih =>
      simp only [List.map_cons, List.sum_cons, List.length_cons, ih]
      push_cast
      ring

theorem foldl_qmin_spec (xs : List ℚ) : ∀ a : ℚ,
    (xs.foldl qmin a = a ∨ xs.foldl qmin a ∈ xs) ∧
    xs.foldl qmin a ≤ a ∧ ∀ x ∈ xs, xs.foldl qmin a ≤ x := by
  induction xs with
  | nil => intro a; exact ⟨Or.inl rfl, le_refl a, by simp⟩
  | cons x xs ih =>
      intro a
      have h := ih (qmin a x)
      have hq1 : qmin a x ≤ a := by
        unfold qmin; split
        · exact le_rfl
        · rename_i h2; exact le_of_not_le h2
      have hq2 : qmin a x ≤ x := by
        unfold qmin; split
        · assumption
        · exact le_rfl
      have hfold : (x :: xs).foldl qmin a = xs.foldl qmin (qmin a x) := rfl
      rw [hfold]
      refine ⟨?_, h.2.1.trans hq1, ?_⟩
      · rcases h.1 with he | hm
        · rw [he]
          unfold qmin; split
          · exact Or.inl rfl
          · exact Or.inr (List.mem_cons_self x xs)
        · exact Or.inr (List.mem_cons_of_mem x hm)
      · intro y hy
        rcases List.mem_cons.mp hy with rfl | hy2
        · exact h.2.1.trans hq2
        · exact h.2.2 y hy2

theorem foldl_qmax_spec (xs : List ℚ) : ∀ a : ℚ,
    (xs.foldl qmax a = a ∨ xs.foldl qmax a ∈ xs) ∧
    a ≤ xs.foldl qmax a ∧ ∀ x ∈ xs, x ≤ xs.foldl qmax a := by
  induction xs with
  | nil => intro a; exact ⟨Or.inl rfl, le_refl a, by simp⟩
  | cons x xs ih =>
      intro a
      have h := ih (qmax a x)
      have hq1 : a ≤ qmax a x := by
        unfold qmax; split
        · assumption
        · exact le_rfl
      have hq2 : x ≤ qmax a x := by
        unfold qmax; split
        · exact le_rfl
        · rename_i h2; exact le_of_not_le h2
      have hfold : (x :: xs).foldl qmax a = xs.foldl qmax (qmax a x) := rfl
      rw [hfold]
      refine ⟨?_, hq1.trans h.2.1, ?_⟩
      · rcases h.1 with he | hm
        · rw [he]
          unfold qmax; split
          · exact Or.inr (List.mem_cons_self x xs)
          · exact Or.inl rfl
        · exact Or.inr (List.mem_cons_of_mem x hm)
      · intro y hy
        rcases List.mem_cons.mp hy with rfl | hy2
        · exact hq2.trans h.2.1
        · exact h.2.2 y hy2

/-- C6: for every numeric column the summarizer reports the count of
non-missing values, the arithmetic mean, the sample variance (square of
the reported standard deviation) with denominator n−1 — an undefined
sentinel when n < 2, never an exception (the summarizer is a total
function) — the minimum, the three quartiles by linear interpolation
between order statistics of a sorted permutation of the values, and the
maximum. -/
theorem C6_describe_stats (col : List (Option ℚ)) :
    (describeCol col).count = (col.filterMap id).length ∧
    ((col.filterMap id).length ≠ 0 → (describeCol col).mean =
      some ((col.filterMap id).sum / ((col.filterMap id).length : ℚ))) ∧
    ((col.filterMap id).length < 2 → (describeCol col).sampleVar = none) ∧
    (2 ≤ (col.filterMap id).length → (describeCol col).sampleVar =
      some (((col.filterMap id).map (fun x =>
          (x - (col.filterMap id).sum / ((col.filterMap id).length : ℚ)) ^ 2)).sum /
        (((col.filterMap id).length : ℚ) - 1))) ∧
    ((col.filterMap id).length ≠ 0 → ∃ m, (describeCol col).minV = some m ∧
      m ∈ col.filterMap id ∧ ∀ x ∈ col.filterMap id, m ≤ x) ∧
    ((col.filterMap id).length ≠ 0 → ∃ M, (describeCol col).maxV = some M ∧
      M ∈ col.filterMap id ∧ ∀ x ∈ col.filterMap id, x ≤ M) ∧
    ((col.filterMap id).length ≠ 0 → ∃ v : List ℚ,
      v.Perm (col.filterMap id) ∧ v.Sorted (· ≤ ·) ∧
      (describeCol col).q25 = some (percentile v (1 / 4)) ∧
      (describeCol col).q50 = some (percentile v (1 / 2)) ∧
      (describeCol col).q75 = some (percentile v (3 / 4))) := by
  refine ⟨rfl, ?_, ?_, ?_, ?_, ?_, ?_⟩
  · intro hn
    simp only [describeCol, if_neg hn]
  · intro hn
    simp only [describeCol, if_pos hn]
  · intro hn
    have hn2 : ¬ (col.filterMap id).length < 2 := by omega
    have hnz : ((col.filterMap id).length : ℚ) ≠ 0 := Nat.cast_ne_zero.mpr (by omega)
    simp only [describeCol, if_neg hn2, Option.some.injEq]
    rw [sum_sq_dev]
    congr 1
    have hS : (col.filterMap id).sum / ((col.filterMap id).length : ℚ) *
        ((col.filterMap id).length : ℚ) = (col.filterMap id).sum :=
      div_mul_cancel₀ _ hnz
    linear_combination (-(2 : ℚ) * ((col.filterMap id).sum /
      ((col.filterMap id).length : ℚ))) * hS
  · intro hn
    rcases hxs : col.filterMap id with _ | ⟨x, rest⟩
    · exact absurd (by rw [hxs]; rfl) hn
    · have h := foldl_qmin_spec rest x
      refine ⟨rest.foldl qmin x, ?_, ?_, ?_⟩
      · simp only [describeCol, minFold, hxs]
      · rcases h.1 with he | hm
        · rw [he]; exact List.mem_cons_self x rest
        · exact List.mem_cons_of_mem x hm
      · intro y hy
        rcases List.mem_cons.mp hy with rfl | hy2
        · exact h.2.1
        · exact h.2.2 y hy2
  · intro hn
    rcases hxs : col.filterMap id with _ | ⟨x, rest⟩
    · exact absurd (by rw [hxs]; rfl) hn
    · have h := foldl_qmax_spec rest x
      refine ⟨rest.foldl qmax x, ?_, ?_, ?_⟩
      · simp only [describeCol, maxFold, hxs]
      · rcases h.1 with he | hm
        · rw [he]; exact List.mem_cons_self x rest
        · exact List.mem_cons_of_mem x hm
      · intro y hy
        rcases List.mem_cons.mp hy with rfl | hy2
        · exact h.2.1
        · exact h.2.2 y hy2
  · intro hn
    refine ⟨List.insertionSort (· ≤ ·) (col.filterMap id),
      List.perm_insertionSort _ _, List.sorted_insertionSort _ _, ?_, ?_, ?_⟩ <;>
      simp only [describeCol, if_neg hn]

/-- C6 witness: on the two-value column 1, 3 the mean is 2 and the sample
variance is 2 (so the reported std is √2), matching the n−1 denominator. -/
theorem C6_witness :
    2 ≤ (([some 1, some 3] : List (Option ℚ)).filterMap id).length ∧
    (describeCol ([some 1, some 3] : List (Option ℚ))).sampleVar =
      some (((([some 1, some 3] : List (Option ℚ)).filterMap id).map (fun x =>
          (x - (([some 1, some 3] : List (Option ℚ)).filterMap id).sum /
            ((([some 1, some 3] : List (Option ℚ)).filterMap id).length : ℚ)) ^ 2)).sum /
        (((([some 1, some 3] : List (Option ℚ)).filterMap id).length : ℚ) - 1)) :=
  ⟨by decide, (C6_describe_stats ([some 1, some 3] : List (Option ℚ))).2.2.2.1 (by decide)⟩

/-- C7: summarizing a zero-row table raises nothing (the summarizer is a
total function) and yields count 0 and the undefined sentinel for every
other aggregate, in every numeric column. -/
theorem C7_empty_describe :
    describeTable [] =
      [("precipitation", ⟨0, none, none, none, none, none, none, none⟩),
       ("temp_max", ⟨0, none, none, none, none, none, none, none⟩),
       ("temp_min", ⟨0, none, none, none, none, none, none, none⟩),
       ("wind", ⟨0, none, none, none, none, none, none, none⟩)] ∧
    ∀ p ∈ describeTable [], (p.2).count = 0 ∧ (p.2).mean = none ∧
      (p.2).sampleVar = none ∧ (p.2).minV = none ∧ (p.2).q25 = none ∧
      (p.2).q50 = none ∧ (p.2).q75 = none ∧ (p.2).maxV = none := by
  refine ⟨rfl, ?_⟩
  intro p hp
  simp only [describeTable, List.mem_cons, List.not_mem_nil, or_false] at hp
  rcases hp with rfl | rfl | rfl | rfl <;> exact ⟨rfl, rfl, rfl, rfl, rfl, rfl, rfl, rfl⟩
